import Mathlib

/-!
Shallow embedding of `adt::string_ref` (src/include/adt/string-ref.h and
src/src/adt/string-ref.cc) and verification of its specification.

Modelling conventions:
* A view's referenced bytes `[data, data+length)` are modelled as a
  `List Nat` of byte values; `size_t` arithmetic is modelled over `Nat`
  with the width `W = 2^64` made explicit where wraparound matters.
* Operations that (per the source) only touch indices in `[0, length)`
  are functions on the byte list alone.  Operations whose source code can
  read outside that range get an explicit model of the surrounding
  memory or an explicit "undefined behaviour" outcome.
-/

namespace StringRef


/-- Width of `size_t` (64-bit). -/
def W : Nat := 2 ^ 64

/-- `npos = (size_t)-1`, the largest `size_t` value (string-ref.h line 37). -/
def npos : Nat := W - 1

/-- `string_ref::memCompare(lhs, rhs, len)` (string-ref.h lines 286-289):
`memcmp` over the first `min` bytes of the two ranges, with the zero-length
case returning 0; result is reported by sign only, as the callers use it. -/
def memCompare : List Nat → List Nat → Int
  | [], _ => 0
  | _ :: _, [] => 0
  | a :: as, b :: bs => if a < b then -1 else if b < a then 1 else memCompare as bs

/-- `string_ref::equals(rhs)` (string-ref.h lines 120-122):
`len == rhs.len && memCompare(ps, rhs.ps, len) == 0`. -/
def equalsB (a b : List Nat) : Bool :=
  a.length == b.length && memCompare a b == 0

/-- `string_ref::compare(rhs)` (string-ref.h lines 131-136). -/
def compare (a b : List Nat) : Int :=
  let comp := memCompare a b
  if comp ≠ 0 then (if comp < 0 then -1 else 1)
  else if a.length = b.length then 0
  else if a.length < b.length then -1 else 1

/-- `operator==` (string-ref.h lines 295-297): `lhs.equals(rhs)`. -/
def eqOp (a b : List Nat) : Bool := equalsB a b

/-- `operator!=` (string-ref.h lines 298-300): `!lhs.equals(rhs)`. -/
def neOp (a b : List Nat) : Bool := !equalsB a b

/-- `operator<` (string-ref.h lines 301-303): `lhs.compare(rhs) < 0`. -/
def ltOp (a b : List Nat) : Bool := compare a b < 0

/-- `operator<=` (string-ref.h lines 304-306): `lhs.compare(rhs) <= 0`. -/
def leOp (a b : List Nat) : Bool := compare a b ≤ 0

/-- `operator>` (string-ref.h lines 307-309): `lhs.compare(rhs) > 0`. -/
def gtOp (a b : List Nat) : Bool := compare a b > 0

/-- `operator>=` (string-ref.h lines 310-312): `lhs.compare(rhs) >= 0`. -/
def geOp (a b : List Nat) : Bool := compare a b ≥ 0

/-- `string_ref::substr(start, num)` (string-ref.h lines 230-233):
`start = min(start, len); return string_ref(ps + start, min(num, len - start))`.
`num` defaults to `capacity = npos`. -/
def substr (l : List Nat) (start : Nat) (num : Nat := npos) : List Nat :=
  let s := min start l.length
  (l.drop s).take (min num (l.length - s))

/-- `string_ref::slice(start, end)` (string-ref.h lines 237-242):
swap if `start > end`, clamp `start` to `len`, clamp `end` to
`[start, len]`, return the view over `[start, end)`. -/
def slice (l : List Nat) (start fin : Nat) : List Nat :=
  let s0 := if start > fin then fin else start
  let e0 := if start > fin then start else fin
  let s := min s0 l.length
  let e := min (max s e0) l.length
  (l.drop s).take (e - s)

/-- `string_ref::drop_front(n)` (string-ref.h lines 261-264):
`assert(n <= len)` then `substr(n)`.  The failed assertion (a fail-fast
contract violation) is modelled as `none`. -/
def drop_front (l : List Nat) (n : Nat := 1) : Option (List Nat) :=
  if n ≤ l.length then some (substr l n) else none

/-- `string_ref::drop_back(n)` (string-ref.h lines 267-270):
`assert(n <= len)` then `substr(0, len - n)`. -/
def drop_back (l : List Nat) (n : Nat := 1) : Option (List Nat) :=
  if n ≤ l.length then some (substr l 0 (l.length - n)) else none

/-- Helper loop of `find_char`: the `for (i = start; i < len; ++i)` scan,
carried out over the still-unscanned bytes `l.drop i`. -/
def findCharFrom (c : Nat) : Nat → List Nat → Nat
  | _, [] => npos
  | i, b :: bs => if b = c then i else findCharFrom c (i + 1) bs

/-- `string_ref::find_char(c, start)` (string-ref.cc lines 47-53):
`if (start >= len) return npos;` then scan `[start, len)` forward. -/
def find_char (l : List Nat) (c : Nat) (start : Nat := 0) : Nat :=
  if start ≥ l.length then npos else findCharFrom c start (l.drop start)

/-- Outcome of the backward scans `rfind_char` / `rfind_if`
(string-ref.cc lines 55-60 and 88-93).  Their loop
`for (size_t i = min(rstart, len - 1); i >= 0; --i)` can exit only via
`return i`: the condition `i >= 0` is vacuous for the unsigned `i`, so when
the target is not found the decrement wraps `0 ↦ 2^64 - 1` and the next
read `ps[i]` is out of bounds (undefined behaviour).  A read at an index
`≥ len` is modelled by stopping with `oob`. -/
inductive RScan where
  | found (i : Nat)
  | oob
deriving DecidableEq, Repr

/-- Backward scan of `rfind_char` from index `i` down: reading `ps[i]` with
`i ≥ len` is out of bounds; at `i = 0` the `--i` wraps to `2^64 - 1 ≥ len`,
so a failed comparison at 0 is followed by an out-of-bounds read. -/
def rfindCharLoop (l : List Nat) (c : Nat) : Nat → RScan
  | 0 =>
    if h : 0 < l.length then
      if l.get ⟨0, h⟩ = c then .found 0 else .oob
    else .oob
  | i + 1 =>
    if h : i + 1 < l.length then
      if l.get ⟨i + 1, h⟩ = c then .found (i + 1) else rfindCharLoop l c i
    else .oob

/-- `string_ref::rfind_char(c, rstart)` (string-ref.cc lines 55-60).
`rstart` defaults to `npos`. `len - 1` is `size_t` arithmetic:
`(len + W - 1) % W`, which wraps to `W - 1` when `len == 0`. -/
def rfind_char (l : List Nat) (c : Nat) (rstart : Nat := npos) : RScan :=
  rfindCharLoop l c (min rstart ((l.length + W - 1) % W))

/-- Bytes a C-string routine sees when reading from a pointer into memory
`m`: everything up to (excluding) the first zero byte. -/
def cstrOf (m : List Nat) : List Nat := m.takeWhile (fun b => b != 0)

/-- `std::strstr(hay, needle)` for a non-empty needle: index of the first
occurrence of `needle` in the C-string `hay`, as a pointer offset. -/
def strstrAux (pat : List Nat) (i : Nat) : List Nat → Option Nat
  | [] => none
  | h :: rest =>
    if pat.isPrefixOf (h :: rest) then some i else strstrAux pat (i + 1) rest

/-- `string_ref::find_str(pattern)` (string-ref.cc lines 62-68):
`if (pattern.size() == 0) return 0;` then
`strstr(ps, pattern.to_string().c_str())`.  `mem` is the memory starting at
`ps` (the view occupies its first `viewLen` bytes); `strstr` scans the
whole C-string `cstrOf mem`, ignoring `viewLen` entirely, and the copied
pattern is truncated at its first zero byte by `c_str()`. -/
def find_str (mem : List Nat) (viewLen : Nat) (p : List Nat) : Nat :=
  if p.length = 0 then 0
  else
    match strstrAux (cstrOf p) 0 (cstrOf mem) with
    | some i => i
    | none => npos

/-- Backward scan of `std::string::rfind` from start index `i` down to 0:
first `i` with the pattern matching at `i`, else `npos`. -/
def rfindStrLoop (l p : List Nat) : Nat → Nat
  | 0 => if p.isPrefixOf l then 0 else npos
  | i + 1 => if p.isPrefixOf (l.drop (i + 1)) then i + 1 else rfindStrLoop l p i

/-- `string_ref::rfind_str(pattern)` (string-ref.cc lines 70-78):
`if (pattern.size() == 0) return 0;` then `to_string().rfind(...)`, i.e.
`std::string::rfind` over exactly the view's `len` bytes: the largest
start position (at most `len - patLen`) where the pattern matches. -/
def rfind_str (l p : List Nat) : Nat :=
  if p.length = 0 then 0
  else if p.length > l.length then npos
  else rfindStrLoop l p (l.length - p.length)

/-- `string_ref::count_str(pattern)` (string-ref.cc lines 103-111):
`if (patternLen > len) return 0;` then count `i` in
`[0, len - patternLen + 1)` with `substr(i, patternLen).equals(pattern)`. -/
def count_str (l p : List Nat) : Nat :=
  if p.length > l.length then 0
  else (List.range (l.length - p.length + 1)).countP fun i => equalsB (substr l i p.length) p

/-- `string_ref::split(char)` (string-ref.cc lines 113-117):
`pos = find(sep)`; `npos ↦ (*this, string_ref())`, otherwise
`(slice(0, pos), slice(pos + 1, len))`. -/
def split_char (l : List Nat) (sep : Nat) : List Nat × List Nat :=
  let pos := find_char l sep
  if pos = npos then (l, []) else (slice l 0 pos, slice l (pos + 1) l.length)

/-- `string_ref::rsplit(char)` (string-ref.cc lines 125-129):
`pos = rfind(sep)` which is `rfind_char`.  The scan either finds an index
(`pos < len < npos`, so the `pos == npos` test is false and the slicing
branch runs) or reaches an out-of-bounds read, modelled as `none`: the
`return npos` of `rfind_char` is unreachable. -/
def rsplit_char (l : List Nat) (sep : Nat) : Option (List Nat × List Nat) :=
  match rfind_char l sep with
  | .found pos => some (slice l 0 pos, slice l (pos + 1) l.length)
  | .oob => none

/-- `string_ref::rsplit(string_ref)` (string-ref.cc lines 131-135):
`pos = rfind(sep)`; `npos ↦ (*this, string_ref())`, otherwise
`(slice(0, pos), slice(pos + sep.size(), len))`. -/
def rsplit_str (l sep : List Nat) : List Nat × List Nat :=
  let pos := rfind_str l sep
  if pos = npos then (l, [])
  else (slice l 0 pos, slice l (pos + sep.length) l.length)

/-- A constructed `string_ref` object: its `ps` pointer's nullness and the
bytes of the view `[ps, ps + len)`. -/
structure SRef where
  psNull : Bool
  bytes : List Nat
deriving DecidableEq, Repr

/-- Length of the view, `string_ref::length()` / `size()`. -/
def SRef.len (s : SRef) : Nat := s.bytes.length

/-- `string_ref::empty()` (string-ref.h line 99): `len == 0`. -/
def SRef.emptyB (s : SRef) : Bool := s.bytes.length == 0

/-- The one-argument constructor `string_ref(const char *str)`
(string-ref.h line 71): `ps(str), len(str ? strlen(str) : 0)`.
The argument models the pointer: `none` is a run-time `NULL`, and `some m`
points at memory whose bytes are `m` (terminator included), of which
`strlen` counts the part before the first zero byte. -/
def mk_from_cstr (p : Option (List Nat)) : SRef :=
  match p with
  | none => { psNull := true, bytes := [] }
  | some m => { psNull := false, bytes := cstrOf m }

/-- `string_ref::withNullAsEmpty(ptr)` (string-ref.h lines 81-83):
`string_ref(ptr ? ptr : "")`, where `""` is a pointer to the one-byte
memory `[0]`. -/
def withNullAsEmpty (p : Option (List Nat)) : SRef :=
  mk_from_cstr (some (p.getD [0]))

/-- Levenshtein distance, by the textbook recursion. -/
def lev : List Nat → List Nat → Nat
  | [], ys => ys.length
  | x :: xs, [] => (x :: xs).length
  | x :: xs, y :: ys =>
    if x = y then lev xs ys
    else 1 + min (lev xs ys) (min (lev (x :: xs) ys) (lev xs (y :: ys)))
termination_by a b => a.length + b.length

/-- `std::tolower` for ASCII bytes, as used by `edit_distance`'s
case-insensitive mode (string-ref.cc line 35). -/
def toLowerN (b : Nat) : Nat := if 65 ≤ b ∧ b ≤ 90 then b + 32 else b

/-- The character comparison of string-ref.cc lines 34-35:
`case_sensitive ? s1[i-1] == s2[j-1] : tolower(s1[i-1]) == tolower(s2[j-1])`. -/
def chEq (cs : Bool) (a b : Nat) : Bool :=
  if cs then a == b else toLowerN a == toLowerN b

/-- Inner loop of `edit_distance` (string-ref.cc lines 33-42), for one
outer iteration with character `x = s1[i-1]`: walks `s2` and the previous
row `dpPrev` together, carrying `left = dp[j-1]`; at each `y = s2[j-1]`,
`diag = dpPrev[j-1]` is the head of the unconsumed part of `dpPrev` and
`up = dpPrev[j]` the next entry.  Produces `dp[1..len2]`. -/
def levRowGo (cs : Bool) (x : Nat) : List Nat → List Nat → Nat → List Nat
  | y :: ys, prev, left =>
    match prev with
    | [] => []
    | diag :: rest =>
      let up := rest.headD 0
      let cur := if chEq cs x y then diag else min (diag + 1) (min (left + 1) (up + 1))
      cur :: levRowGo cs x ys rest cur
  | [], _, _ => []

/-- One outer iteration of `edit_distance` (string-ref.cc lines 30-43):
`swap(dp, dpPrev); dp[0] = i;` then the inner loop.  `dp[0] = i` equals
`dpPrev[0] + 1` since `dpPrev[0]` was `i - 1`. -/
def levRowStep (cs : Bool) (ys prev : List Nat) (x : Nat) : List Nat :=
  (prev.headD 0 + 1) :: levRowGo cs x ys prev (prev.headD 0 + 1)

/-- `string_ref::edit_distance(rhs, case_sensitive)`
(string-ref.cc lines 22-45): `len1 == 0 || len2 == 0` returns
`len1 + len2`; otherwise the two-row dynamic program starting from
`dp = [0, 1, ..., len2]` and ending in `dp[len2]`. -/
def edit_distance (s1 s2 : List Nat) (cs : Bool := true) : Nat :=
  if s1.length = 0 ∨ s2.length = 0 then s1.length + s2.length
  else (s1.foldl (levRowStep cs s2) (List.range (s2.length + 1))).getD s2.length 0

/-- The row of reference distances `[lev u (q ++ t) | t a prefix of ys]`,
against which the DP rows are proved correct. -/
def rowG (u q : List Nat) : List Nat → List Nat
  | [] => [lev u q]
  | y :: ys => lev u q :: rowG u (q ++ [y]) ys

theorem memCompare_self (a : List Nat) : memCompare a a = 0 := by
  induction a with
  | nil => rfl
  | cons x xs ih => simp [memCompare, ih]

theorem memCompare_eq_zero_iff_of_length {a b : List Nat} (h : a.length = b.length) :
    memCompare a b = 0 ↔ a = b := by
  induction a generalizing b with
  | nil =>
    cases b with
    | nil => simp [memCompare]
    | cons y ys => simp at h
  | cons x xs ih =>
    cases b with
    | nil => simp at h
    | cons y ys =>
      simp only [List.length_cons, Nat.add_right_cancel_iff] at h
      by_cases hxy : x < y
      · simp [memCompare, hxy]
        omega
      · by_cases hyx : y < x
        · simp [memCompare, hxy, hyx]
          omega
        · have hxy' : x = y := by omega
          subst hxy'
          simp [memCompare, hxy, ih h]

theorem memCompare_neg (a b : List Nat) : memCompare a b = -memCompare b a := by
  induction a generalizing b with
  | nil => cases b <;> simp [memCompare]
  | cons x xs ih =>
    cases b with
    | nil => simp [memCompare]
    | cons y ys =>
      by_cases hxy : x < y
      · have : ¬ y < x := by omega
        simp [memCompare, hxy, this]
      · by_cases hyx : y < x
        · simp [memCompare, hxy, hyx]
        · simp [memCompare, hxy, hyx, ih]

theorem equalsB_iff (a b : List Nat) : equalsB a b = true ↔ a = b := by
  unfold equalsB
  constructor
  · intro h
    simp only [Bool.and_eq_true, beq_iff_eq] at h
    exact (memCompare_eq_zero_iff_of_length h.1).mp h.2
  · intro h
    subst h
    simp [memCompare_self]

theorem equalsB_eq_decide (a b : List Nat) : equalsB a b = decide (a = b) := by
  by_cases h : a = b
  · rw [(equalsB_iff a b).mpr h]
    simp [h]
  · have h2 : ¬ equalsB a b = true := fun hc => h ((equalsB_iff a b).mp hc)
    simp only [Bool.not_eq_true] at h2
    simp [h2, h]

theorem compare_cons (x y : Nat) (as bs : List Nat) :
    compare (x :: as) (y :: bs) =
      if x < y then -1 else if y < x then 1 else compare as bs := by
  by_cases hxy : x < y
  · have h1 : memCompare (x :: as) (y :: bs) = -1 := by simp [memCompare, hxy]
    simp [compare, h1, hxy]
  · by_cases hyx : y < x
    · have h1 : memCompare (x :: as) (y :: bs) = 1 := by simp [memCompare, hxy, hyx]
      simp [compare, h1, hxy, hyx]
    · have h1 : memCompare (x :: as) (y :: bs) = memCompare as bs := by
        simp [memCompare, hxy, hyx]
      simp only [compare, h1, hxy, hyx, if_false, List.length_cons,
        Nat.add_right_cancel_iff, Nat.add_lt_add_iff_right]

theorem compare_self (a : List Nat) : compare a a = 0 := by
  simp [compare, memCompare_self]

theorem compare_nil_left (b : List Nat) : compare [] b ≤ 0 := by
  cases b with
  | nil => simp [compare_self]
  | cons y ys =>
    simp only [compare, memCompare]
    norm_num

theorem compare_cons_nil (x : Nat) (as : List Nat) : compare (x :: as) [] = 1 := by
  simp only [compare, memCompare]
  norm_num

theorem compare_eq_zero_iff (a b : List Nat) : compare a b = 0 ↔ a = b := by
  constructor
  · intro h
    unfold compare at h
    by_cases hm : memCompare a b = 0
    · simp only [hm, ne_eq, not_true_eq_false, if_false] at h
      by_cases hl : a.length = b.length
      · exact (memCompare_eq_zero_iff_of_length hl).mp hm
      · simp only [hl, if_false] at h
        split at h <;> omega
    · simp only [hm, ne_eq, not_false_eq_true, if_true] at h
      split at h <;> omega
  · intro h
    subst h
    exact compare_self a

theorem compare_neg (a b : List Nat) : compare a b = -compare b a := by
  induction a generalizing b with
  | nil =>
    cases b with
    | nil => simp [compare_self]
    | cons y ys =>
      rw [compare_cons_nil]
      simp only [compare, memCompare]
      norm_num
  | cons x xs ih =>
    cases b with
    | nil =>
      rw [compare_cons_nil]
      simp only [compare, memCompare]
      norm_num
    | cons y ys =>
      rw [compare_cons, compare_cons]
      by_cases hxy : x < y
      · have : ¬ y < x := by omega
        simp [hxy, this]
      · by_cases hyx : y < x
        · simp [hxy, hyx]
        · simp [hxy, hyx, ih]

theorem compare_trans (a b c : List Nat) (h1 : compare a b ≤ 0) (h2 : compare b c ≤ 0) :
    compare a c ≤ 0 := by
  induction a generalizing b c with
  | nil => exact compare_nil_left c
  | cons x xs ih =>
    cases b with
    | nil => rw [compare_cons_nil] at h1; omega
    | cons y ys =>
      cases c with
      | nil => rw [compare_cons_nil] at h2; omega
      | cons z zs =>
        rw [compare_cons] at h1 h2 ⊢
        rcases Nat.lt_trichotomy x y with hxy | hxy | hxy
        · rcases Nat.lt_trichotomy y z with hyz | hyz | hyz
          · have : x < z := by omega
            simp [this]
          · subst hyz
            simp [hxy]
          · have : ¬ y < z := by omega
            simp only [if_neg this, if_pos hyz] at h2
            omega
        · subst hxy
          simp only [lt_irrefl, if_neg, if_false] at h1
          rcases Nat.lt_trichotomy x z with hyz | hyz | hyz
          · simp [hyz]
          · subst hyz
            simp only [lt_irrefl, if_neg, if_false] at h2 ⊢
            exact ih ys zs h1 h2
          · have : ¬ x < z := by omega
            simp only [if_neg this, if_pos hyz] at h2
            omega
        · have : ¬ x < y := by omega
          simp only [if_neg this, if_pos hxy] at h1
          omega

theorem compare_total (a b : List Nat) : compare a b ≤ 0 ∨ compare b a ≤ 0 := by
  rcases le_or_lt (compare a b) 0 with h | h
  · exact Or.inl h
  · right
    rw [compare_neg]
    omega

theorem lev_nil_left (ys : List Nat) : lev [] ys = ys.length := by
  simp [lev]

theorem lev_nil_right (xs : List Nat) : lev xs [] = xs.length := by
  cases xs <;> simp [lev]

theorem lev_cons_cons (x y : Nat) (xs ys : List Nat) :
    lev (x :: xs) (y :: ys) =
      if x = y then lev xs ys
      else 1 + min (lev xs ys) (min (lev (x :: xs) ys) (lev xs (y :: ys))) := by
  rw [lev]

theorem lev_self (a : List Nat) : lev a a = 0 := by
  induction a with
  | nil => simp [lev_nil_left]
  | cons x xs ih => rw [lev_cons_cons, if_pos rfl, ih]

theorem lev_symm_aux : ∀ (n : Nat) (a b : List Nat), a.length + b.length ≤ n →
    lev a b = lev b a := by
  intro n
  induction n with
  | zero =>
    intro a b h
    cases a with
    | nil =>
      cases b with
      | nil => rfl
      | cons y ys => simp only [List.length_cons, List.length_nil] at h; omega
    | cons x xs => simp only [List.length_cons] at h; omega
  | succ n ih =>
    intro a b h
    match a, b with
    | [], b => rw [lev_nil_left, lev_nil_right]
    | a :: as, [] => rw [lev_nil_left, lev_nil_right]
    | x :: xs, y :: ys =>
      rw [lev_cons_cons, lev_cons_cons]
      simp only [List.length_cons] at h
      have h1 : lev xs ys = lev ys xs := ih xs ys (by omega)
      have h2 : lev (x :: xs) ys = lev ys (x :: xs) := ih (x :: xs) ys (by simp; omega)
      have h3 : lev xs (y :: ys) = lev (y :: ys) xs := ih xs (y :: ys) (by simp; omega)
      by_cases hxy : x = y
      · subst hxy
        simp [h1]
      · have hyx : ¬ y = x := fun hc => hxy hc.symm
        rw [if_neg hxy, if_neg hyx, h1, h2, h3]
        omega

theorem lev_symm (a b : List Nat) : lev a b = lev b a :=
  lev_symm_aux (a.length + b.length) a b le_rfl

theorem lev_concat_aux : ∀ (n : Nat) (x y : Nat) (as bs : List Nat),
    as.length + bs.length ≤ n →
    lev (as ++ [x]) (bs ++ [y]) =
      if x = y then lev as bs
      else 1 + min (lev as bs) (min (lev (as ++ [x]) bs) (lev as (bs ++ [y]))) := by
  intro n
  induction n with
  | zero =>
    intro x y as bs h
    have ha : as = [] := by
      cases as with
      | nil => rfl
      | cons a as' => simp only [List.length_cons] at h; omega
    have hb : bs = [] := by
      cases bs with
      | nil => rfl
      | cons b bs' => simp only [List.length_cons] at h; omega
    subst ha; subst hb
    simp only [List.nil_append]
    exact lev_cons_cons x y [] []
  | succ n ih =>
    intro x y as bs h
    cases as with
    | nil =>
      cases bs with
      | nil =>
        simp only [List.nil_append]
        exact lev_cons_cons x y [] []
      | cons b bs' =>
        simp only [List.length_nil, List.length_cons] at h
        have hI1 := ih x y [] bs' (by simp only [List.length_nil]; omega)
        simp only [List.nil_append] at hI1 ⊢
        rw [List.cons_append, lev_cons_cons x b [] (bs' ++ [y]), hI1,
          lev_cons_cons x b [] bs']
        simp only [lev_nil_left, List.length_append, List.length_cons, List.length_nil]
        split_ifs <;> omega
    | cons a as' =>
      cases bs with
      | nil =>
        simp only [List.length_nil, List.length_cons] at h
        have hI1 := ih x y as' [] (by simp only [List.length_nil]; omega)
        simp only [List.nil_append] at hI1 ⊢
        rw [List.cons_append, lev_cons_cons a y (as' ++ [x]) [], hI1,
          lev_cons_cons a y as' []]
        simp only [lev_nil_left, lev_nil_right, List.length_append, List.length_cons,
          List.length_nil]
        split_ifs <;> omega
      | cons b bs' =>
        simp only [List.length_cons] at h
        have hI1 := ih x y as' bs' (by omega)
        have hI2 := ih x y (a :: as') bs' (by simp only [List.length_cons]; omega)
        have hI3 := ih x y as' (b :: bs') (by simp only [List.length_cons]; omega)
        simp only [List.cons_append] at hI2 hI3 ⊢
        rw [lev_cons_cons a b (as' ++ [x]) (bs' ++ [y]), hI1, hI2, hI3,
          lev_cons_cons a b as' bs', lev_cons_cons a b (as' ++ [x]) bs',
          lev_cons_cons a b as' (bs' ++ [y])]
        by_cases hxy : x = y
        · by_cases hab : a = b
          · simp only [if_pos hxy, if_pos hab]
          · simp only [if_pos hxy, if_neg hab]
        · by_cases hab : a = b
          · simp only [if_neg hxy, if_pos hab]
          · simp only [if_neg hxy, if_neg hab]
            generalize lev as' bs' = A1
            generalize lev (as' ++ [x]) bs' = A2
            generalize lev as' (bs' ++ [y]) = A3
            generalize lev (a :: as') bs' = A4
            generalize lev (a :: (as' ++ [x])) bs' = A5
            generalize lev (a :: as') (bs' ++ [y]) = A6
            generalize lev as' (b :: bs') = A7
            generalize lev (as' ++ [x]) (b :: bs') = A8
            generalize lev as' (b :: (bs' ++ [y])) = A9
            have e1 : ∀ u v : Nat, min (1 + u) (1 + v) = 1 + min u v :=
              fun u v => min_add_add_left 1 u v
            simp only [e1]
            have e2 : min (min A1 (min A2 A3)) (min (min A4 (min A5 A6)) (min A7 (min A8 A9)))
                = min (min A1 (min A4 A7)) (min (min A2 (min A5 A8)) (min A3 (min A6 A9))) := by
              ac_rfl
            rw [e2]

theorem lev_concat (x y : Nat) (as bs : List Nat) :
    lev (as ++ [x]) (bs ++ [y]) =
      if x = y then lev as bs
      else 1 + min (lev as bs) (min (lev (as ++ [x]) bs) (lev as (bs ++ [y]))) :=
  lev_concat_aux (as.length + bs.length) x y as bs le_rfl

theorem rowG_head (u q : List Nat) (ys : List Nat) : (rowG u q ys).headD 0 = lev u q := by
  cases ys <;> rfl

theorem rowG_eta (u q : List Nat) (ys : List Nat) :
    rowG u q ys = lev u q :: (rowG u q ys).tail := by
  cases ys <;> rfl

theorem levRowGo_rowG (x : Nat) (p : List Nat) : ∀ (ys q : List Nat),
    levRowGo true x ys (rowG p q ys) (lev (p ++ [x]) q) = (rowG (p ++ [x]) q ys).tail := by
  intro ys
  induction ys with
  | nil => intro q; rfl
  | cons y ys ih =>
    intro q
    show levRowGo true x (y :: ys) (lev p q :: rowG p (q ++ [y]) ys) (lev (p ++ [x]) q)
      = (rowG (p ++ [x]) q (y :: ys)).tail
    have hcur : (if chEq true x y then lev p q
        else min (lev p q + 1) (min (lev (p ++ [x]) q + 1) ((rowG p (q ++ [y]) ys).headD 0 + 1)))
        = lev (p ++ [x]) (q ++ [y]) := by
      rw [rowG_head, lev_concat]
      by_cases hxy : x = y
      · simp [chEq, hxy]
      · have hb : chEq true x y = false := by simp [chEq, hxy]
        rw [hb, if_neg hxy]
        simp only [Bool.false_eq_true, if_false]
        omega
    calc levRowGo true x (y :: ys) (lev p q :: rowG p (q ++ [y]) ys) (lev (p ++ [x]) q)
        = (if chEq true x y then lev p q
            else min (lev p q + 1)
              (min (lev (p ++ [x]) q + 1) ((rowG p (q ++ [y]) ys).headD 0 + 1)))
          :: levRowGo true x ys (rowG p (q ++ [y]) ys)
            (if chEq true x y then lev p q
              else min (lev p q + 1)
                (min (lev (p ++ [x]) q + 1) ((rowG p (q ++ [y]) ys).headD 0 + 1))) := rfl
      _ = lev (p ++ [x]) (q ++ [y])
          :: levRowGo true x ys (rowG p (q ++ [y]) ys) (lev (p ++ [x]) (q ++ [y])) := by
            rw [hcur]
      _ = lev (p ++ [x]) (q ++ [y]) :: (rowG (p ++ [x]) (q ++ [y]) ys).tail := by
            rw [ih (q ++ [y])]
      _ = rowG (p ++ [x]) (q ++ [y]) ys := (rowG_eta _ _ _).symm
      _ = (rowG (p ++ [x]) q (y :: ys)).tail := rfl

theorem levRowStep_rowG (x : Nat) (p ys : List Nat) :
    levRowStep true ys (rowG p [] ys) x = rowG (p ++ [x]) [] ys := by
  have hh : (rowG p [] ys).headD 0 + 1 = lev (p ++ [x]) [] := by
    rw [rowG_head, lev_nil_right, lev_nil_right, List.length_append, List.length_cons,
      List.length_nil]
  unfold levRowStep
  rw [hh, levRowGo_rowG, ← rowG_eta]

theorem foldl_levRowStep (ys : List Nat) : ∀ (xs p : List Nat),
    xs.foldl (levRowStep true ys) (rowG p [] ys) = rowG (p ++ xs) [] ys := by
  intro xs
  induction xs with
  | nil => intro p; simp [List.foldl_nil]
  | cons x xs ih =>
    intro p
    rw [List.foldl_cons, levRowStep_rowG, ih (p ++ [x]), List.append_assoc]
    rfl

theorem rowG_nil_map : ∀ (ys q : List Nat),
    rowG [] q ys = (List.range (ys.length + 1)).map (fun k => q.length + k) := by
  intro ys
  induction ys with
  | nil =>
    intro q
    show [lev [] q] = List.map (fun k => q.length + k) (List.range ([].length + 1))
    rw [lev_nil_left]
    rfl
  | cons y ys ih =>
    intro q
    show lev [] q :: rowG [] (q ++ [y]) ys
      = List.map (fun k => q.length + k) (List.range ((y :: ys).length + 1))
    rw [lev_nil_left, List.length_cons, List.range_succ_eq_map (ys.length + 1),
      List.map_cons, List.map_map, ih (q ++ [y])]
    congr 1
    apply List.map_congr_left
    intro k _
    simp only [Function.comp_apply, List.length_append, List.length_cons, List.length_nil]
    omega

theorem rowG_getD_last : ∀ (ys u q : List Nat),
    (rowG u q ys).getD ys.length 0 = lev u (q ++ ys) := by
  intro ys
  induction ys with
  | nil => intro u q; simp [rowG]
  | cons y ys ih =>
    intro u q
    show (lev u q :: rowG u (q ++ [y]) ys).getD (ys.length + 1) 0 = lev u (q ++ y :: ys)
    rw [List.getD_cons_succ, ih u (q ++ [y]), List.append_assoc]
    rfl

theorem edit_distance_eq_lev (s1 s2 : List Nat) : edit_distance s1 s2 true = lev s1 s2 := by
  unfold edit_distance
  by_cases h : s1.length = 0 ∨ s2.length = 0
  · rw [if_pos h]
    rcases h with h | h
    · have : s1 = [] := List.length_eq_zero.mp h
      subst this
      rw [lev_nil_left, List.length_nil, Nat.zero_add]
    · have : s2 = [] := List.length_eq_zero.mp h
      subst this
      rw [lev_nil_right, List.length_nil, Nat.add_zero]
  · rw [if_neg h]
    have hinit : List.range (s2.length + 1) = rowG [] [] s2 := by
      rw [rowG_nil_map s2 []]
      simp
    rw [hinit, foldl_levRowStep s2 s1 [], List.nil_append, rowG_getD_last s2 s1 [],
      List.nil_append]

/-- Claim C4: in case-sensitive mode `edit_distance` equals the Levenshtein
distance; consequently it is symmetric, zero on equal inputs, equals the
other operand's length against an empty view, and
`edit_distance("sea", "eat") = 2`. -/
theorem spec_C4_edit_distance_levenshtein :
    (∀ a b : List Nat, edit_distance a b true = lev a b)
    ∧ (∀ a b : List Nat, edit_distance a b true = edit_distance b a true)
    ∧ (∀ a : List Nat, edit_distance a a true = 0)
    ∧ (∀ a : List Nat, edit_distance [] a true = a.length ∧ edit_distance a [] true = a.length)
    ∧ edit_distance [115, 101, 97] [101, 97, 116] true = 2 := by
  refine ⟨edit_distance_eq_lev, fun a b => ?_, fun a => ?_, fun a => ⟨?_, ?_⟩, by decide⟩
  · rw [edit_distance_eq_lev, edit_distance_eq_lev, lev_symm]
  · rw [edit_distance_eq_lev, lev_self]
  · rw [edit_distance_eq_lev, lev_nil_left]
  · rw [edit_distance_eq_lev, lev_nil_right]

/-- Claim C6: `compare == 0`, `equals` and `operator==` agree and coincide
with byte-wise equality of the views; `compare` induces a total order
(antisymmetric, transitive, total) and the derived operators
`<`, `<=`, `>`, `>=`, `!=` are consistent with it. -/
theorem spec_C6_compare_total_order :
    (∀ a b : List Nat,
      (compare a b = 0 ↔ equalsB a b = true) ∧ (equalsB a b = true ↔ eqOp a b = true)
        ∧ (eqOp a b = true ↔ a = b))
    ∧ (∀ a b : List Nat, compare a b ≤ 0 → compare b a ≤ 0 → a = b)
    ∧ (∀ a b c : List Nat, compare a b ≤ 0 → compare b c ≤ 0 → compare a c ≤ 0)
    ∧ (∀ a b : List Nat, compare a b ≤ 0 ∨ compare b a ≤ 0)
    ∧ (∀ a b : List Nat,
      (ltOp a b = true ↔ compare a b < 0) ∧ (leOp a b = true ↔ compare a b ≤ 0)
        ∧ (gtOp a b = true ↔ 0 < compare a b) ∧ (geOp a b = true ↔ 0 ≤ compare a b)
        ∧ (neOp a b = true ↔ ¬ a = b)) := by
  refine ⟨fun a b => ⟨?_, Iff.rfl, equalsB_iff a b⟩, fun a b h1 h2 => ?_,
    compare_trans, compare_total, fun a b => ⟨?_, ?_, ?_, ?_, ?_⟩⟩
  · rw [compare_eq_zero_iff, equalsB_iff]
  · have h3 := compare_neg a b
    have h0 : compare a b = 0 := by omega
    exact (compare_eq_zero_iff a b).mp h0
  · simp [ltOp]
  · simp [leOp]
  · simp [gtOp]
  · simp [geOp]
  · simp only [neOp, Bool.not_eq_true']
    rw [equalsB_eq_decide]
    simp

/-- Witness for claim C6: transitivity applied at concrete views. -/
theorem spec_C6_compare_total_order_witness : compare [97] [99] ≤ 0 :=
  spec_C6_compare_total_order.2.2.1 [97] [98] [99] (by decide) (by decide)

/-- Claim C7: `slice(start, end)` first swaps the two arguments if
`start > end`, then clamps both into `[0, length]` and returns the view
over `[start, end)`; hence `slice(start, end) = slice(end, start)` for all
arguments and `slice(i, i)` is empty for every `i ≤ length`. -/
theorem spec_C7_slice_swap_clamp :
    (∀ (l : List Nat) (s e : Nat), s ≤ e →
      slice l s e = (l.drop (min s l.length)).take (min e l.length - min s l.length))
    ∧ (∀ (l : List Nat) (s e : Nat), slice l s e = slice l e s)
    ∧ (∀ (l : List Nat) (i : Nat), i ≤ l.length → slice l i i = []) := by
  refine ⟨fun l s e h => ?_, fun l s e => ?_, fun l i h => ?_⟩
  · have h1 : ¬ s > e := by omega
    simp only [slice, h1, if_false]
    have h2 : min (max (min s l.length) e) l.length = min e l.length := by omega
    rw [h2]
  · rcases Nat.lt_trichotomy s e with h | h | h
    · have h1 : ¬ s > e := by omega
      have h2 : e > s := h
      simp only [slice, h1, h2, if_false, if_true]
    · subst h
      rfl
    · have h1 : s > e := h
      have h2 : ¬ e > s := by omega
      simp only [slice, h1, h2, if_false, if_true]
  · have h1 : ¬ i > i := by omega
    have h2 : min i l.length = i := by omega
    simp only [slice, h1, if_false, h2, max_self, Nat.sub_self, List.take_zero]

/-- Witness for claim C7 at concrete inputs. -/
theorem spec_C7_slice_witness :
    slice [97, 98, 99] 1 1 = [] ∧
      slice [97, 98, 99] 1 2 = ([97, 98, 99].drop (min 1 [97, 98, 99].length)).take
        (min 2 [97, 98, 99].length - min 1 [97, 98, 99].length) :=
  ⟨spec_C7_slice_swap_clamp.2.2 [97, 98, 99] 1 (by decide),
   spec_C7_slice_swap_clamp.1 [97, 98, 99] 1 2 (by decide)⟩

/-- Claim C8: `substr(start, count)` clamps `start` to the length and
returns the view over `[start, start + count)` further clamped to the
view's end; `substr(0, npos)` (the unbounded default) is the identity, and
`"abc".substr(2, 4) = "c"`. -/
theorem spec_C8_substr_clamp :
    (∀ (l : List Nat) (s n : Nat), substr l s n = (l.drop (min s l.length)).take n)
    ∧ (∀ l : List Nat, l.length ≤ npos → substr l 0 npos = l)
    ∧ substr [97, 98, 99] 2 4 = [99] := by
  refine ⟨fun l s n => ?_, fun l h => ?_, by decide⟩
  · simp only [substr]
    have hK : (l.drop (min s l.length)).length = l.length - min s l.length :=
      List.length_drop _ _
    rw [← hK, ← List.take_take, List.take_length]
  · simp only [substr, Nat.min_zero, Nat.zero_min, List.drop_zero, Nat.sub_zero]
    have h2 : min npos l.length = l.length := by omega
    rw [h2, List.take_length]

/-- Witness for claim C8 at a concrete view. -/
theorem spec_C8_substr_witness : substr [97, 98, 99] 0 npos = [97, 98, 99] :=
  spec_C8_substr_clamp.2.1 [97, 98, 99] (by decide)

/-- Claim C9: `drop_front(0)` and `drop_back(0)` are the identity; for
`n ≤ length` they remove exactly `n` characters from the respective end;
for `n > length` they are contract violations that fail the assertion
(modelled as `none`) rather than clamping. -/
theorem spec_C9_drop_exact :
    (∀ l : List Nat, l.length ≤ npos → drop_front l 0 = some l ∧ drop_back l 0 = some l)
    ∧ (∀ (l : List Nat) (n : Nat), l.length ≤ npos → n ≤ l.length →
        drop_front l n = some (l.drop n) ∧ drop_back l n = some (l.take (l.length - n)))
    ∧ (∀ (l : List Nat) (n : Nat), l.length < n →
        drop_front l n = none ∧ drop_back l n = none) := by
  have hfront : ∀ (l : List Nat) (n : Nat), l.length ≤ npos → n ≤ l.length →
      drop_front l n = some (l.drop n) := by
    intro l n hl hn
    simp only [drop_front, hn, if_true]
    congr 1
    simp only [substr]
    have h1 : min n l.length = n := by omega
    have h2 : min npos (l.length - n) = l.length - n := by omega
    rw [h1, h2, ← List.length_drop n l, List.take_length]
  have hback : ∀ (l : List Nat) (n : Nat), n ≤ l.length →
      drop_back l n = some (l.take (l.length - n)) := by
    intro l n hn
    simp only [drop_back, hn, if_true]
    congr 1
    simp only [substr, Nat.min_zero, Nat.zero_min, List.drop_zero, Nat.sub_zero]
    have h1 : min (l.length - n) l.length = l.length - n := by omega
    rw [h1]
  refine ⟨fun l hl => ⟨?_, ?_⟩, fun l n hl hn => ⟨hfront l n hl hn, hback l n hn⟩,
    fun l n hn => ⟨?_, ?_⟩⟩
  · rw [hfront l 0 hl (Nat.zero_le _), List.drop_zero]
  · rw [hback l 0 (Nat.zero_le _), Nat.sub_zero, List.take_length]
  · simp only [drop_front, if_neg (by omega : ¬ n ≤ l.length)]
  · simp only [drop_back, if_neg (by omega : ¬ n ≤ l.length)]

/-- Witness for claim C9 at concrete inputs. -/
theorem spec_C9_drop_witness :
    drop_front [97, 98, 99] 0 = some [97, 98, 99] ∧ drop_front [97] 2 = none :=
  ⟨(spec_C9_drop_exact.1 [97, 98, 99] (by decide)).1,
   (spec_C9_drop_exact.2.2 [97] 2 (by decide)).1⟩

/-- Claim C10 (implicit): the one-argument constructor
`string_ref(const char *)` given a pointer that is null at run time does
not reject or fail: it constructs an empty view of length 0, the same
length as `withNullAsEmpty` yields on null. -/
theorem spec_C10_null_pointer_ctor :
    (mk_from_cstr none).len = 0 ∧ (mk_from_cstr none).emptyB = true
      ∧ (mk_from_cstr none).len = (withNullAsEmpty none).len := by
  decide

/-- Claim C5: for a pattern no longer than the view, `count_str` equals the
number of start positions `i ∈ [0, len - patLen]` at which the pattern
matches exactly, so overlapping occurrences are counted: "aa" occurs twice
in "aaa" and "ab" twice in "abcab". -/
theorem spec_C5_count_str_overlap :
    (∀ l p : List Nat, p.length ≤ l.length →
      count_str l p = ((List.range (l.length - p.length + 1)).countP
        fun i => decide ((l.drop i).take p.length = p)))
    ∧ count_str [97, 97, 97] [97, 97] = 2
    ∧ count_str [97, 98, 99, 97, 98] [97, 98] = 2 := by
  refine ⟨fun l p h => ?_, by decide, by decide⟩
  simp only [count_str, if_neg (by omega : ¬ p.length > l.length)]
  apply List.countP_congr
  intro i hi
  rw [List.mem_range] at hi
  have hi' : i ≤ l.length - p.length := by omega
  have hsub : substr l i p.length = (l.drop i).take p.length := by
    simp only [substr]
    have h1 : min i l.length = i := by omega
    have h2 : min p.length (l.length - i) = p.length := by omega
    rw [h1, h2]
  rw [hsub, equalsB_eq_decide]

/-- Witness for claim C5 at a concrete input. -/
theorem spec_C5_count_str_witness :
    count_str [97, 97, 97] [97, 97] =
      ((List.range (([97, 97, 97] : List Nat).length - ([97, 97] : List Nat).length + 1)).countP
        fun i => decide ((([97, 97, 97] : List Nat).drop i).take ([97, 97] : List Nat).length
          = [97, 97])) :=
  spec_C5_count_str_overlap.1 [97, 97, 97] [97, 97] (by decide)

/-- Claim C1 (refuted, code bug): `rfind_char` is claimed to return the last
index ≤ min(rstart, length-1) holding the character and `npos` when none
exists, without underflowing for empty views.  In fact, when the character
does not occur (view "ab", character 'z') the backward scan decrements past
index 0, wraps around, and reads out of bounds instead of returning `npos`;
for the empty view the very first read `ps[min(rstart, (size_t)0 - 1)]` is
already out of bounds. -/
theorem spec_C1_rfind_char_oob :
    rfind_char [97, 98] 122 npos = RScan.oob
      ∧ rfind_char ([] : List Nat) 97 0 = RScan.oob := by
  decide

/-- Claim C2 (refuted, code bug): the search operations are claimed to read
only `[0, length)`, so that any index returned by `find` satisfies
`i + length(pattern) ≤ length`.  In fact `find_str` hands `ps` to
`strstr`, which scans the whole null-terminated buffer: on the view
`string_ref("abcdef", 3)` with pattern "cde" it reads past `data[3]` and
returns 2 although `2 + 3 > 3`. -/
theorem spec_C2_find_str_past_view :
    find_str [97, 98, 99, 100, 101, 102] 3 [99, 100, 101] = 2
      ∧ ¬ (2 + ([99, 100, 101] : List Nat).length ≤ 3) := by
  decide

/-- Claim C3 (refuted on one path, code bug): `split`/`rsplit` are claimed
to pair the subviews around the first/last separator occurrence and return
`(whole view, empty view)` when the separator is absent.  The pattern
overload works — `rsplit("ab")` on "abcdefabgh" gives ("abcdef", "gh") —
but `rsplit(char)` with an absent separator (view "ab", separator 'z')
reaches the out-of-bounds backward scan of `rfind_char` (modelled `none`)
instead of returning `(whole view, empty view)`. -/
theorem spec_C3_rsplit_seps :
    rsplit_char [97, 98] 122 = none
      ∧ rsplit_str [97, 98, 99, 100, 101, 102, 97, 98, 103, 104] [97, 98]
        = ([97, 98, 99, 100, 101, 102], [103, 104]) := by
  decide

end StringRef
